import Mathlib

/-!
Shallow embedding of the BUSDIV Awards Dashboard data pipeline
(`src/App.jsx` / the dashboard component): record normalization
(`tidyRow`), the year index and range resolution (`allYears`,
`visibleYears`), the deactivation assessor (`assessRecDeact`), the query
pipeline (`filtered`), and the CSV export (`downloadFilteredCsv`).

JavaScript numbers are modelled exactly: integer-valued cells as `Int`,
and the two division sites (`avg5`, `avgPerYear`) as exact fractions
(`Frac`) with a rational-number interpretation.  For the integer data
and small denominators occurring here, exact rational comparison agrees
with IEEE double comparison.
-/

namespace Awards

/-! ### Characters, digits, and JS `Number()` coercion -/

/-- ASCII decimal digit test. -/
def isDigitChar (c : Char) : Bool := 48 ≤ c.toNat && c.toNat ≤ 57

/-- Whitespace stripped by JS `Number()`: the ECMAScript WhiteSpace and
LineTerminator code points (tab, LF, VT, FF, CR, space, NBSP, the Unicode
space separators, LS, PS, NNBSP, MMSP, ideographic space, and ZWNBSP). -/
def isWsChar (c : Char) : Bool :=
  c.toNat == 9 || c.toNat == 10 || c.toNat == 11 || c.toNat == 12 || c.toNat == 13 ||
    c.toNat == 32 || c.toNat == 0xa0 || c.toNat == 0x1680 ||
    (0x2000 ≤ c.toNat && c.toNat ≤ 0x200a) || c.toNat == 0x2028 || c.toNat == 0x2029 ||
    c.toNat == 0x202f || c.toNat == 0x205f || c.toNat == 0x3000 || c.toNat == 0xfeff

/-- Strip leading and trailing whitespace from a character list. -/
def trimWs (cs : List Char) : List Char :=
  ((cs.dropWhile isWsChar).reverse.dropWhile isWsChar).reverse

/-- Accumulate decimal digits; fails on any non-digit character. -/
def parseDigitsAux : List Char → Nat → Option Nat
  | [], acc => some acc
  | c :: t, acc =>
      if isDigitChar c then parseDigitsAux t (acc * 10 + (c.toNat - 48)) else none

/-- A nonempty all-digit character list, read as a natural number. -/
def parseDigits : List Char → Option Nat
  | [] => none
  | c :: t => parseDigitsAux (c :: t) 0

/-- The numeral body of `Number()`: an optional sign and decimal digits. -/
def jsNumberChars : List Char → Option Int
  | [] => some 0
  | c :: t =>
      if c = '-' then (parseDigits t).map (fun n => -(Int.ofNat n))
      else if c = '+' then (parseDigits t).map Int.ofNat
      else (parseDigits (c :: t)).map Int.ofNat

/-- JS `Number(s)` on a string, modelled exactly on the integer-numeral
fragment: surrounding whitespace is ignored, the empty (or all-whitespace)
string coerces to 0, and an optional sign followed by decimal digits
yields precisely that integer.  Every string this parser accepts is a JS
numeric literal (see `isJsNumeral`, which decides the full grammar), and
every non-numeral is rejected (`none`, the NaN outcome); numerals outside
the signed-integer form (fractions, exponents, hex/octal/binary) lie
outside the modelled fragment and are also sent to `none`. -/
def jsNumber (s : String) : Option Int := jsNumberChars (trimWs s.data)

/-- The year-cell coercion `Number(row[y] ?? 0) || 0` from `tidyRow`: an
absent value goes through `Number(0)` to 0, a NaN result is replaced by 0
by `|| 0`, and any other number (0 included) passes through.  Exact on
absent cells, on non-numeric cells, and on integer-numeral cells; numeral
cells outside `jsNumber`'s integer fragment are outside the model. -/
def coerceCell : Option String → Int
  | none => 0
  | some s => (jsNumber s).getD 0

/-! ### The full JS numeric-literal grammar (the exact NaN classification) -/

/-- One or more decimal digits. -/
def decDigits1 (l : List Char) : Bool := !l.isEmpty && l.all isDigitChar

/-- A hexadecimal digit. -/
def isHexDigit (c : Char) : Bool :=
  isDigitChar c || (97 ≤ c.toNat && c.toNat ≤ 102) || (65 ≤ c.toNat && c.toNat ≤ 70)

/-- An octal digit. -/
def isOctDigit (c : Char) : Bool := 48 ≤ c.toNat && c.toNat ≤ 55

/-- A binary digit. -/
def isBinDigit (c : Char) : Bool := c == '0' || c == '1'

/-- An ExponentPart: e or E, an optional sign, then digits. -/
def isExpTail (l : List Char) : Bool :=
  match l with
  | [] => false
  | c :: r =>
      (c == 'e' || c == 'E') &&
        (if decide (r.head? = some '+') || decide (r.head? = some '-') then decDigits1 r.tail
         else decDigits1 r)

/-- A StrUnsignedDecimalLiteral: the word Infinity, or decimal digits with
an optional fraction and exponent, or a leading dot with fraction digits
and an optional exponent. -/
def isUnsignedDec (l : List Char) : Bool :=
  if l = "Infinity".data then true
  else
    let ip := l.takeWhile isDigitChar
    let r := l.dropWhile isDigitChar
    if ip.isEmpty then
      decide (r.head? = some '.') &&
        (let fp := r.tail.takeWhile isDigitChar
         let r3 := r.tail.dropWhile isDigitChar
         !fp.isEmpty && (r3.isEmpty || isExpTail r3))
    else
      if r.isEmpty then true
      else if decide (r.head? = some '.') then
        (let r3 := r.tail.dropWhile isDigitChar
         r3.isEmpty || isExpTail r3)
      else isExpTail r

/-- A StrNumericLiteral after whitespace trimming: empty (coerces to 0), a
hex, octal, or binary literal (no sign allowed), or an optionally signed
decimal literal. -/
def isNumLitChars : List Char → Bool
  | [] => true
  | [c] => if c == '+' || c == '-' then isUnsignedDec [] else isUnsignedDec [c]
  | c :: c2 :: r =>
      if c = '0' then
        (if c2 == 'x' || c2 == 'X' then !r.isEmpty && r.all isHexDigit
         else if c2 == 'o' || c2 == 'O' then !r.isEmpty && r.all isOctDigit
         else if c2 == 'b' || c2 == 'B' then !r.isEmpty && r.all isBinDigit
         else isUnsignedDec ('0' :: c2 :: r))
      else if c == '+' || c == '-' then isUnsignedDec (c2 :: r)
      else isUnsignedDec (c :: c2 :: r)

/-- Is `Number(s)` a number rather than NaN?  This decides the ECMAScript
StringNumericLiteral grammar exactly, so `isJsNumeral s = false` is
precisely the case the program's `|| 0` turns into a stored 0. -/
def isJsNumeral (s : String) : Bool := isNumLitChars (trimWs s.data)

/-! ### Printing numbers the way JS string conversion does -/

/-- The ASCII character of a decimal digit. -/
def digitChar (d : Nat) : Char := Char.ofNat (48 + d)

/-- Decimal digits of `n`, least significant first, with explicit fuel so
that the kernel can evaluate it. -/
def natDigitsRevAux : Nat → Nat → List Nat
  | 0, _ => []
  | fuel + 1, n => if n = 0 then [] else n % 10 :: natDigitsRevAux fuel (n / 10)

/-- Decimal digits of `n`, least significant first (empty for 0). -/
def natDigitsRev (n : Nat) : List Nat := natDigitsRevAux n n

/-- Decimal numeral of a natural number, as JS prints it. -/
def natToStr (n : Nat) : String :=
  if n = 0 then "0" else ⟨((natDigitsRev n).map digitChar).reverse⟩

/-- Decimal numeral of an integer, as JS prints it. -/
def intToStr : Int → String
  | .ofNat n => natToStr n
  | .negSucc m => "-" ++ natToStr (m + 1)

/-! ### The year-label pattern of `tidyRow` -/

/-- Does the regex `\d{4}-\d{2}` match at the head of the character list? -/
def yearPatAt : List Char → Bool
  | a :: b :: c :: d :: '-' :: e :: f :: _ =>
      isDigitChar a && isDigitChar b && isDigitChar c && isDigitChar d &&
        isDigitChar e && isDigitChar f
  | _ => false

/-- Does the regex `\d{4}-\d{2}` match anywhere in the character list? -/
def hasYearPat : List Char → Bool
  | [] => false
  | c :: t => yearPatAt (c :: t) || hasYearPat t

/-- The unanchored regex test `/\d{4}-\d{2}/.test s` used by `tidyRow` to
classify a column name as a year column. -/
def isYearLike (s : String) : Bool := hasYearPat s.data

/-- JS `String.prototype.includes`: substring containment. -/
def strIncludes (s needle : String) : Bool := decide (needle.data <:+: s.data)

/-! ### Exact fractions standing in for the two JS division results -/

/-- An exact fraction with a positive denominator.  The dashboard divides
only by positive year counts, so every fraction it builds has this shape. -/
structure Frac where
  num : Int
  den : Nat
  den_pos : 0 < den

instance : DecidableEq Frac := fun a b =>
  decidable_of_iff (a.num = b.num ∧ a.den = b.den) (by cases a; cases b; simp)

/-- An integer as a fraction. -/
def Frac.ofInt (n : Int) : Frac := ⟨n, 1, Nat.one_pos⟩

/-- Negation of a fraction (used for descending sort comparators). -/
def Frac.neg (f : Frac) : Frac := ⟨-f.num, f.den, f.den_pos⟩

/-- Strict comparison of fractions by cross-multiplication. -/
def Frac.ltB (a b : Frac) : Bool := decide (a.num * (b.den : Int) < b.num * (a.den : Int))

/-- Equality of fractions as values, by cross-multiplication. -/
def Frac.eqB (a b : Frac) : Bool := decide (a.num * (b.den : Int) = b.num * (a.den : Int))

/-- The rational number a fraction denotes. -/
def Frac.toRat (f : Frac) : ℚ := (f.num : ℚ) / (f.den : ℚ)

/-- Left-pad a numeral with zeros until it has more than `d` characters. -/
def padLeft (s : String) (d : Nat) : String :=
  if s.length ≤ d then (⟨List.replicate (d + 1 - s.length) '0'⟩ : String) ++ s else s

/-- JS `x.toFixed(digits)` on the exact value `f`: print the sign of the
value, then the magnitude rounded to `digits` decimal places (ties toward
the larger rounding, per the ECMAScript algorithm). -/
def fracToFixed (f : Frac) (digits : Nat) : String :=
  let sgn := if f.num < 0 then "-" else ""
  let scaledNum := f.num.natAbs * 10 ^ digits
  let n : Nat := (2 * scaledNum + f.den) / (2 * f.den)
  if digits = 0 then sgn ++ natToStr n
  else
    let s := padLeft (natToStr n) digits
    let k := s.length - digits
    sgn ++ (⟨s.data.take k⟩ : String) ++ "." ++ (⟨s.data.drop k⟩ : String)

/-! ### The record normalizer (`tidyRow`) -/

/-- A raw parsed CSV row: column name to cell value.  A `none` cell models
a column that is present but `undefined`. -/
abbrev RawRow := List (String × Option String)

/-- The normalized record shape produced by `tidyRow`. -/
structure DashRec where
  dept : String
  code : String
  title : String
  award : String
  years : List (String × Int)
deriving DecidableEq

/-- `row[key] || ""` for the four named text columns. -/
def getStrField (row : RawRow) (key : String) : String :=
  match List.lookup key row with
  | some (some s) => s
  | _ => ""

/-- `tidyRow`: keep every column whose name passes the unanchored year
pattern as a year column with its value coerced to a number, and read the
four named text columns, trimmed. -/
def tidyRow (row : RawRow) : DashRec :=
  let yearKeys := (row.map Prod.fst).filter isYearLike
  { dept := (getStrField row "DEPT").trim
    code := (getStrField row "STATE CONTROL NUMBER").trim
    title := (getStrField row "PROGRAM TITLE").trim
    award := (getStrField row "AWARD TYPE").trim
    years := yearKeys.map (fun y => (y, coerceCell ((List.lookup y row).getD none))) }

/-- `r.years[y] || 0` (also `?? 0`): the stored count, or 0 when the label
is absent.  For numeric stored values the two JS operators agree: both
yield 0 exactly on a stored 0. -/
def yearVal (r : DashRec) (y : String) : Int := (List.lookup y r.years).getD 0

/-! ### The year index and range resolution -/

/-- Code-unit comparison of character lists, the JS default sort order. -/
def charsLe : List Char → List Char → Bool
  | [], _ => true
  | _ :: _, [] => false
  | a :: s, b :: t =>
      if a.toNat < b.toNat then true
      else if b.toNat < a.toNat then false
      else charsLe s t

/-- JS default string comparison for `Array.prototype.sort()`. -/
def strLeB (a b : String) : Bool := charsLe a.data b.data

/-- The full year index: the set of year labels observed across all
records, deduplicated and sorted ascending (`allYears`). -/
def allYearsOf (rows : List DashRec) : List String :=
  List.insertionSort (fun a b => strLeB a b = true)
    ((rows.flatMap (fun r => r.years.map Prod.fst)).dedup)

/-- JS `Array.prototype.indexOf`: position of the first occurrence, or -1. -/
def idxOf (ys : List String) (s : String) : Int :=
  match ys.findIdx? (fun y => y == s) with
  | some i => (i : Int)
  | none => -1

/-- Truthiness of a range endpoint: `null` and the empty string are falsy. -/
def truthyStr : Option String → Bool
  | none => false
  | some s => !(s == "")

/-- `visibleYears`: resolve the selected `[rangeStart, rangeEnd]` against
the year index.  A missing/falsy endpoint or one not found in the index
yields the full index; otherwise the inclusive slice between the two
positions, in index order, whichever endpoint came first. -/
def resolveRange (allYears : List String) (rangeStart rangeEnd : Option String) : List String :=
  if allYears.isEmpty || !truthyStr rangeStart || !truthyStr rangeEnd then allYears
  else
    let i0 := idxOf allYears (rangeStart.getD "")
    let i1 := idxOf allYears (rangeEnd.getD "")
    if i0 = -1 ∨ i1 = -1 then allYears
    else
      let lo := min i0 i1
      let hi := max i0 i1
      (allYears.drop lo.toNat).take (hi.toNat + 1 - lo.toNat)

/-! ### The deactivation assessor (`assessRecDeact`) -/

/-- Threshold: minimum total over the last five years. -/
def REC_MIN_TOTAL_5Y : Int := 15

/-- Threshold: minimum average per year over the last five years. -/
def REC_MIN_AVG_5Y : Int := 3

/-- Threshold: minimum single-year peak over the last five years. -/
def REC_MIN_PEAK_5Y : Int := 3

/-- `allYears.slice(-5)`: the last five labels (or all, if fewer). -/
def last5Of (allYears : List String) : List String :=
  allYears.drop (allYears.length - 5)

/-- The record's counts over the last five labels, 0 for a missing label. -/
def valsOf (r : DashRec) (allYears : List String) : List Int :=
  (last5Of allYears).map (yearVal r)

/-- `total5`: the sum of the last-five-year counts. -/
def total5Of (r : DashRec) (allYears : List String) : Int := (valsOf r allYears).sum

/-- `zeros`: how many of the last-five-year counts are exactly 0. -/
def zerosOf (r : DashRec) (allYears : List String) : Nat :=
  ((valsOf r allYears).filter (fun v => v == 0)).length

/-- `peak`: `Math.max(...vals)` (only used when the label list is nonempty). -/
def peakOf (r : DashRec) (allYears : List String) : Int :=
  ((valsOf r allYears).max?).getD 0

/-- `avg5` as the exact rational it denotes: the total divided by the
number of labels used. -/
def avg5Of (r : DashRec) (allYears : List String) : ℚ :=
  (total5Of r allYears : ℚ) / ((last5Of allYears).length : ℚ)

/-- The assessor's result: a flag and a human-readable justification. -/
structure Assessment where
  flag : Bool
  reason : String
deriving DecidableEq

/-- `assessRecDeact`: evaluate the three deactivation rules against the
last five labels of the full year index and report every triggered rule;
with no years at all, report `flag: false, reason: "No years"`. -/
def assessRecDeact (r : DashRec) (allYears : List String) : Assessment :=
  let last5 := last5Of allYears
  if h : last5.length = 0 then ⟨false, "No years"⟩
  else
    let total5 := total5Of r allYears
    let avg5 : Frac := ⟨total5, last5.length, Nat.pos_of_ne_zero h⟩
    let zeros := zerosOf r allYears
    let peak := peakOf r allYears
    let lowOverall := decide (total5 < REC_MIN_TOTAL_5Y) && Frac.ltB avg5 (Frac.ofInt REC_MIN_AVG_5Y)
    let manyZeros := decide (3 ≤ zeros)
    let noPeak := decide (peak < REC_MIN_PEAK_5Y)
    if lowOverall || manyZeros || noPeak then
      let reasons :=
        (if lowOverall then
          ["5y total " ++ intToStr total5 ++ " & avg " ++ fracToFixed avg5 1 ++
            " (<" ++ intToStr REC_MIN_TOTAL_5Y ++ ", <" ++ intToStr REC_MIN_AVG_5Y ++ ")"]
         else []) ++
        (if manyZeros then ["zeros " ++ natToStr zeros ++ "/5"] else []) ++
        (if noPeak then
          ["max/year " ++ intToStr peak ++ " (<" ++ intToStr REC_MIN_PEAK_5Y ++ ")"]
         else [])
      ⟨true, String.intercalate "; " reasons⟩
    else
      ⟨false, "5y total " ++ intToStr total5 ++ ", avg " ++ fracToFixed avg5 1 ++
        ", max " ++ intToStr peak ++ ", zeros " ++ natToStr zeros⟩

/-! ### The query pipeline (`filtered`) -/

/-- A record enriched with the range-scoped aggregates and the
deactivation assessment (one element of `filtered`). -/
structure ViewRow where
  base : DashRec
  totalRange : Int
  avgPerYear : Frac
  recDeact : Bool
  recDeactReason : String
deriving DecidableEq

/-- The aggregate-attachment stage of the pipeline: compute `totalRange`
over the visible years, `avgPerYear` with the `max(1, ...)` guard, and the
deactivation assessment against the full year index. -/
def annotateRow (visibleYears allYears : List String) (r : DashRec) : ViewRow :=
  let yearCount := max 1 visibleYears.length
  let totalRange := (visibleYears.map (yearVal r)).sum
  let avgPerYear : Frac := ⟨totalRange, yearCount, lt_of_lt_of_le Nat.one_pos (le_max_left 1 _)⟩
  let d := assessRecDeact r allYears
  ⟨r, totalRange, avgPerYear, d.flag, d.reason⟩

/-- The UI parameters consumed by the pipeline. -/
structure QueryParams where
  dept : String
  award : String
  q : String
  recDeactOnly : Bool
  sortKey : String
  sortDir : String
  topN : Option Nat

/-- The sort comparator's value of a row for the chosen sort key:
`totalRange`, `avgPerYear`, or a year column (0 when the year is absent). -/
def sortVal (sortKey : String) (v : ViewRow) : Frac :=
  if sortKey = "totalRange" then Frac.ofInt v.totalRange
  else if sortKey = "avgPerYear" then v.avgPerYear
  else Frac.ofInt ((List.lookup sortKey v.base.years).getD 0)

/-- The sort value oriented by direction: ascending keeps the value,
anything else (the `desc` branch of the comparator) negates it. -/
def dirVal (sortKey sortDir : String) (v : ViewRow) : Frac :=
  if sortDir = "asc" then sortVal sortKey v else Frac.neg (sortVal sortKey v)

/-- The stable-sort order on position-decorated rows: strictly smaller
comparator value first, and for equal values the earlier original
position first (ECMAScript guarantees `Array.prototype.sort` is stable). -/
def sortRelB (sortKey sortDir : String) (p q : Nat × ViewRow) : Bool :=
  Frac.ltB (dirVal sortKey sortDir p.2) (dirVal sortKey sortDir q.2) ||
    (Frac.eqB (dirVal sortKey sortDir p.2) (dirVal sortKey sortDir q.2) && decide (p.1 ≤ q.1))

/-- The sort stage on rows decorated with their pre-sort positions. -/
def sortedEnum (sortKey sortDir : String) (l : List ViewRow) : List (Nat × ViewRow) :=
  List.insertionSort (fun p q => sortRelB sortKey sortDir p q = true) l.enum

/-- The sort stage of the pipeline (`out.sort(...)`). -/
def sortStage (sortKey sortDir : String) (l : List ViewRow) : List ViewRow :=
  (sortedEnum sortKey sortDir l).map Prod.snd

/-- The keyword filter predicate: case-insensitive substring match against
title, award type, or control number. -/
def keywordHit (needle : String) (r : DashRec) : Bool :=
  strIncludes r.title.toLower needle || strIncludes r.award.toLower needle ||
    strIncludes r.code.toLower needle

/-- The full query pipeline (`filtered`): department filter, award filter,
keyword filter, aggregate attachment, flagged-only filter, sort, top-N. -/
def computeView (rows : List DashRec) (p : QueryParams)
    (visibleYears allYears : List String) : List ViewRow :=
  let out := rows
  let out := if p.dept ≠ "All" then out.filter (fun r => r.dept == p.dept) else out
  let out := if p.award ≠ "All" then out.filter (fun r => r.award == p.award) else out
  let out := if p.q.trim ≠ "" then out.filter (keywordHit p.q.toLower) else out
  let out := out.map (annotateRow visibleYears allYears)
  let out := if p.recDeactOnly then out.filter (fun v => v.recDeact) else out
  let out := sortStage p.sortKey p.sortDir out
  out.take (match p.topN with | none => out.length | some n => n)

/-! ### The export serializer (`downloadFilteredCsv`) and CSV re-parsing -/

/-- Double every quote character (`replaceAll` of a quote by two). -/
def escChars (l : List Char) : List Char :=
  l.flatMap (fun c => if c = '"' then ['"', '"'] else [c])

/-- Wrap a text field in quotes with internal quotes doubled
(the export's treatment of the title and award fields). -/
def escQuoted (s : String) : String :=
  "\"" ++ (⟨escChars s.data⟩ : String) ++ "\""

/-- `Array.prototype.join(",")`. -/
def joinComma : List String → String
  | [] => ""
  | [s] => s
  | s :: t => s ++ "," ++ joinComma t

/-- The fixed (non-year) export header columns. -/
def fixedHeaderCols : List String :=
  ["DEPT", "STATE CONTROL NUMBER", "PROGRAM TITLE", "AWARD TYPE",
    "TOTAL (Range)", "AVG / yr", "Rec Deact (last 5y)"]

/-- The export header line: the fixed columns then the visible years. -/
def csvHeader (visibleYears : List String) : String :=
  joinComma (fixedHeaderCols ++ visibleYears)

/-- The cells of one exported data row, in column order: the raw dept and
code, the quoted title and award, the computed columns, then the visible
year counts (0 when absent). -/
def csvRowCells (visibleYears : List String) (v : ViewRow) : List String :=
  [v.base.dept, v.base.code, escQuoted v.base.title, escQuoted v.base.award,
    intToStr v.totalRange, fracToFixed v.avgPerYear 2,
    if v.recDeact then "Yes" else "No"] ++
    visibleYears.map (fun y => intToStr (yearVal v.base y))

/-- One exported data row as delimited text (`row.join(",")`). -/
def csvDataRow (visibleYears : List String) (v : ViewRow) : String :=
  joinComma (csvRowCells visibleYears v)

/-- CSV field splitter for one line, as a CSV reader parses the export:
outside quotes a comma ends the field and a quote at the start of a field
opens a quoted section; inside quotes a doubled quote is a literal quote
and a single quote closes the section. -/
def splitGo : Bool → List Char → List Char → List (List Char)
  | false, [], cur => [cur.reverse]
  | false, c :: t, cur =>
      if c = ',' then cur.reverse :: splitGo false t []
      else if c = '"' then
        (if cur.isEmpty then splitGo true t [] else splitGo false t (c :: cur))
      else splitGo false t (c :: cur)
  | true, [], cur => [cur.reverse]
  | true, c :: t, cur =>
      if c = '"' then
        match t with
        | [] => splitGo false [] cur
        | c2 :: t2 => if c2 = '"' then splitGo true t2 ('"' :: cur) else splitGo false (c2 :: t2) cur
      else splitGo true t (c :: cur)

/-- Split one CSV line into its fields. -/
def splitCsvLine (s : String) : List String := (splitGo false s.data []).map (⟨·⟩)

/-- Re-parse one exported data row into a raw row, pairing the header's
columns with the data line's fields positionally, as a header-aware CSV
reader does. -/
def reparseRow (headerLine dataLine : String) : RawRow :=
  (splitCsvLine headerLine).zip ((splitCsvLine dataLine).map some)

/-- A field of a rendered CSV line: emitted raw or emitted quoted. -/
inductive CsvCell where
  | raw (s : String)
  | quoted (s : String)

/-- How a cell is rendered into the line. -/
def renderCell : CsvCell → String
  | .raw s => s
  | .quoted s => escQuoted s

/-- The field value a cell carries. -/
def cellVal : CsvCell → String
  | .raw s => s
  | .quoted s => s

/-- A string free of the delimiter and of quote characters. -/
def cleanStr (s : String) : Prop := ∀ c ∈ s.data, c ≠ ',' ∧ c ≠ '"'

/-- A cell the field splitter parses back exactly: raw cells must be
clean, quoted cells are always safe. -/
def cellOk : CsvCell → Prop
  | .raw s => cleanStr s
  | .quoted _ => True

/-- `join(",")` at the character level. -/
def joinCommaChars : List (List Char) → List Char
  | [] => []
  | [s] => s
  | s :: t => s ++ ',' :: joinCommaChars t

/-- The number denoted by a little-endian decimal digit list. -/
def ofDigitsRev : List Nat → Nat
  | [] => 0
  | d :: t => d + 10 * ofDigitsRev t

/-! ### Concrete data used by the closed scenario theorems and witnesses -/

/-- The scenario record of the spec: one completion in 2021-22, nothing
else, over the 2019-2024 window. -/
def rec9 : DashRec :=
  ⟨"", "", "", "", [("2019-20", 0), ("2020-21", 0), ("2021-22", 1), ("2022-23", 0), ("2023-24", 0)]⟩

/-- The five-label year index of the scenario. -/
def ys9 : List String := ["2019-20", "2020-21", "2021-22", "2022-23", "2023-24"]

/-- A record whose department name contains the delimiter. -/
def recCx : DashRec := ⟨"A,B", "c", "t", "a", [("2019-20", 7)]⟩

/-- A record with quotes and delimiters confined to the quoted fields. -/
def recW : DashRec := ⟨"BUS", "0101", "a,\"b\"", "AS,\"x\"", [("2019-20", 12)]⟩

/-- A healthy record used to instantiate the assessor characterization. -/
def recA : DashRec :=
  ⟨"", "", "", "", [("2019-20", 4), ("2020-21", 5), ("2021-22", 6), ("2022-23", 7), ("2023-24", 8)]⟩

/-- Two view rows with equal totals and distinct codes, to instantiate
sort stability. -/
def vrA : ViewRow := ⟨⟨"", "x", "", "", []⟩, 5, Frac.ofInt 5, false, ""⟩

/-- See `vrA`. -/
def vrB : ViewRow := ⟨⟨"", "y", "", "", []⟩, 5, Frac.ofInt 5, false, ""⟩

/-- A tiny record set for the full-index total witness. -/
def recT : DashRec := ⟨"", "", "", "", [("2019-20", 2), ("2021-22", 3)]⟩

/-- A second record contributing extra year labels to the index. -/
def recT2 : DashRec := ⟨"", "", "", "", [("2020-21", 1)]⟩

/-- A raw row exercising the three coercion cases: a present-but-undefined
cell, a non-numeric cell, and a negative integer-numeral cell. -/
def rowC3w : RawRow :=
  [("DEPT", some "X"), ("2019-20", some "-7"), ("2020-21", none), ("2021-22", some "abc")]

/-! ## Fraction comparison agrees with the rational values -/

theorem Frac.ltB_iff (a b : Frac) : Frac.ltB a b = true ↔ a.toRat < b.toRat := by
  unfold Frac.ltB Frac.toRat
  rw [decide_eq_true_iff, div_lt_div_iff (by exact_mod_cast a.den_pos) (by exact_mod_cast b.den_pos)]
  constructor <;> intro h <;> exact_mod_cast h

theorem Frac.eqB_iff (a b : Frac) : Frac.eqB a b = true ↔ a.toRat = b.toRat := by
  unfold Frac.eqB Frac.toRat
  rw [decide_eq_true_iff,
    div_eq_div_iff (Nat.cast_ne_zero.mpr a.den_pos.ne')
      (Nat.cast_ne_zero.mpr b.den_pos.ne')]
  constructor <;> intro h <;> exact_mod_cast h

theorem Frac.toRat_neg (a : Frac) : (Frac.neg a).toRat = -a.toRat := by
  unfold Frac.neg Frac.toRat
  push_cast
  ring

/-! ## Decimal printing and JS numeric coercion round-trip -/

theorem natDigitsRevAux_lt10 : ∀ (fuel n : Nat), ∀ d ∈ natDigitsRevAux fuel n, d < 10 := by
  intro fuel
  induction fuel with
  | zero => intro n d hd; simp [natDigitsRevAux] at hd
  | succ fuel ih =>
    intro n d hd
    by_cases h : n = 0
    · simp [natDigitsRevAux, h] at hd
    · simp only [natDigitsRevAux, if_neg h, List.mem_cons] at hd
      rcases hd with hd | hd
      · subst hd; exact Nat.mod_lt _ (by norm_num)
      · exact ih _ d hd

theorem natDigitsRevAux_val : ∀ (fuel n : Nat), n ≤ fuel → ofDigitsRev (natDigitsRevAux fuel n) = n := by
  intro fuel
  induction fuel with
  | zero => intro n hn; interval_cases n; simp [natDigitsRevAux, ofDigitsRev]
  | succ fuel ih =>
    intro n hn
    by_cases h : n = 0
    · simp [natDigitsRevAux, h, ofDigitsRev]
    · have hdiv : n / 10 ≤ fuel := by
        have := Nat.div_lt_self (Nat.pos_of_ne_zero h) (by norm_num : (1:ℕ) < 10)
        omega
      simp only [natDigitsRevAux, if_neg h, ofDigitsRev, ih _ hdiv]
      omega

theorem natDigitsRevAux_ne_nil : ∀ (fuel n : Nat), n ≠ 0 → n ≤ fuel → natDigitsRevAux fuel n ≠ [] := by
  intro fuel n h hn
  cases fuel with
  | zero => omega
  | succ fuel => simp [natDigitsRevAux, if_neg h]

theorem digitChar_spec : ∀ d : Nat, d < 10 →
    isDigitChar (digitChar d) = true ∧ (digitChar d).toNat = 48 + d ∧
      digitChar d ≠ ',' ∧ digitChar d ≠ '"' ∧ digitChar d ≠ '-' ∧ digitChar d ≠ '+' ∧
      isWsChar (digitChar d) = false := by
  intro d hd
  interval_cases d <;> exact ⟨by decide, by decide, by decide, by decide, by decide, by decide, by decide⟩

theorem isDigitChar_not_special {c : Char} (h : isDigitChar c = true) :
    c ≠ ',' ∧ c ≠ '"' ∧ c ≠ '-' ∧ c ≠ '+' ∧ isWsChar c = false := by
  unfold isDigitChar at h
  rw [Bool.and_eq_true, decide_eq_true_iff, decide_eq_true_iff] at h
  refine ⟨?_, ?_, ?_, ?_, ?_⟩
  · rintro rfl; exact absurd h (by decide)
  · rintro rfl; exact absurd h (by decide)
  · rintro rfl; exact absurd h (by decide)
  · rintro rfl; exact absurd h (by decide)
  · unfold isWsChar
    simp only [Bool.or_eq_false_iff, Bool.and_eq_false_iff, beq_eq_false_iff_ne, ne_eq,
      decide_eq_false_iff_not, not_le]
    omega

theorem natToStr_chars : ∀ (n : Nat), ∀ c ∈ (natToStr n).data, isDigitChar c = true := by
  intro n c hc
  unfold natToStr at hc
  by_cases h : n = 0
  · simp [h] at hc; subst hc; decide
  · simp only [if_neg h] at hc
    change c ∈ ((natDigitsRev n).map digitChar).reverse at hc
    rw [List.mem_reverse, List.mem_map] at hc
    obtain ⟨d, hd, rfl⟩ := hc
    exact (digitChar_spec d (natDigitsRevAux_lt10 n n d hd)).1

theorem parseDigitsAux_digits : ∀ (ds : List Nat) (acc : Nat), (∀ d ∈ ds, d < 10) →
    parseDigitsAux (ds.map digitChar) acc = some (ds.foldl (fun a d => a * 10 + d) acc) := by
  intro ds
  induction ds with
  | nil => intro acc _; simp [parseDigitsAux]
  | cons d t ih =>
    intro acc hds
    have hd : d < 10 := hds d (by simp)
    obtain ⟨hdig, htn, -⟩ := digitChar_spec d hd
    simp only [List.map_cons, parseDigitsAux, hdig, if_pos, htn, List.foldl_cons]
    rw [show 48 + d - 48 = d by omega]
    exact ih _ (fun x hx => hds x (by simp [hx]))

theorem foldl_reverse_ofDigitsRev : ∀ (ds : List Nat) (acc : Nat),
    (ds.reverse).foldl (fun a d => a * 10 + d) acc = acc * 10 ^ ds.length + ofDigitsRev ds := by
  intro ds
  induction ds with
  | nil => intro acc; simp [ofDigitsRev]
  | cons d t ih =>
    intro acc
    simp only [List.reverse_cons, List.foldl_append, List.foldl_cons, List.foldl_nil, ih,
      ofDigitsRev, List.length_cons]
    ring

theorem natDigitsRev_lt10 (n : Nat) : ∀ d ∈ natDigitsRev n, d < 10 :=
  natDigitsRevAux_lt10 n n

theorem natDigitsRev_val (n : Nat) : ofDigitsRev (natDigitsRev n) = n :=
  natDigitsRevAux_val n n le_rfl

theorem natDigitsRev_ne_nil {n : Nat} (h : n ≠ 0) : natDigitsRev n ≠ [] :=
  natDigitsRevAux_ne_nil n n h le_rfl

theorem parseDigits_cons (c : Char) (t : List Char) :
    parseDigits (c :: t) = parseDigitsAux (c :: t) 0 := rfl

theorem parseDigits_natToStr (n : Nat) :
    (natToStr n).data ≠ [] ∧ parseDigits (natToStr n).data = some n := by
  by_cases h : n = 0
  · subst h; exact ⟨by decide, by decide⟩
  · have hne := natDigitsRev_ne_nil h
    have hval := natDigitsRev_val n
    have hlt := natDigitsRev_lt10 n
    have hdata : (natToStr n).data = ((natDigitsRev n).reverse).map digitChar := by
      unfold natToStr
      rw [if_neg h]
      show ((natDigitsRev n).map digitChar).reverse = _
      rw [List.map_reverse]
    have hne2 : ((natDigitsRev n).reverse).map digitChar ≠ [] := by
      simp only [ne_eq, List.map_eq_nil_iff, List.reverse_eq_nil_iff]
      exact hne
    refine ⟨by rw [hdata]; exact hne2, ?_⟩
    obtain ⟨c, t, hct⟩ := List.exists_cons_of_ne_nil hne2
    rw [hdata, hct, parseDigits_cons, ← hct,
      parseDigitsAux_digits _ 0 (fun d hd => hlt d (List.mem_reverse.mp hd)),
      foldl_reverse_ofDigitsRev]
    simp only [Nat.zero_mul, Nat.zero_add]
    rw [hval]

theorem dropWhile_eq_self_of_none : ∀ {l : List Char} {p : Char → Bool},
    (∀ c ∈ l, p c = false) → l.dropWhile p = l := by
  intro l p h
  cases l with
  | nil => rfl
  | cons c t => rw [List.dropWhile_cons_of_neg (by simp [h c (by simp)])]

theorem trimWs_eq_self {l : List Char} (h : ∀ c ∈ l, isWsChar c = false) : trimWs l = l := by
  unfold trimWs
  rw [dropWhile_eq_self_of_none h,
    dropWhile_eq_self_of_none (fun c hc => h c (List.mem_reverse.mp hc)), List.reverse_reverse]

theorem jsNumber_natToStr (n : Nat) : jsNumber (natToStr n) = some (n : Int) := by
  obtain ⟨hne, hparse⟩ := parseDigits_natToStr n
  have hdig := natToStr_chars n
  unfold jsNumber
  rw [trimWs_eq_self (fun c hc => (isDigitChar_not_special (hdig c hc)).2.2.2.2)]
  obtain ⟨c, t, hct⟩ := List.exists_cons_of_ne_nil hne
  have hc : isDigitChar c = true := hdig c (by rw [hct]; simp)
  obtain ⟨-, -, hminus, hplus, -⟩ := isDigitChar_not_special hc
  rw [hct]
  simp only [jsNumberChars, if_neg hminus, if_neg hplus]
  rw [← hct, hparse]
  rfl

theorem jsNumber_intToStr (v : Int) : jsNumber (intToStr v) = some v := by
  cases v with
  | ofNat n => exact jsNumber_natToStr n
  | negSucc m =>
    show jsNumber ("-" ++ natToStr (m + 1)) = some (Int.negSucc m)
    obtain ⟨hne, hparse⟩ := parseDigits_natToStr (m + 1)
    have hdig := natToStr_chars (m + 1)
    unfold jsNumber
    rw [String.data_append, show ("-" : String).data = ['-'] from rfl]
    rw [trimWs_eq_self ?clean]
    case clean =>
      intro c hc
      rcases List.mem_cons.mp hc with hc | hc
      · subst hc; decide
      · exact (isDigitChar_not_special (hdig c hc)).2.2.2.2
    have hstep : jsNumberChars ('-' :: (natToStr (m + 1)).data)
        = (parseDigits (natToStr (m + 1)).data).map (fun n => -(Int.ofNat n)) := by
      simp [jsNumberChars]
    rw [List.singleton_append, hstep, hparse]
    simp only [Option.map_some', Option.some.injEq, Int.negSucc_eq, Int.ofNat_eq_coe]
    push_cast
    ring

/-! ## Clean fields: the characters the export writes for numbers -/

/-! ## The integer parser only accepts JS numeric literals -/

theorem parseDigitsAux_all_digits : ∀ (l : List Char) (acc n : Nat),
    parseDigitsAux l acc = some n → l.all isDigitChar = true := by
  intro l
  induction l with
  | nil => intro acc n _; rfl
  | cons c t ih =>
    intro acc n h
    by_cases hc : isDigitChar c = true
    · rw [List.all_cons, hc, Bool.true_and]
      rw [parseDigitsAux, if_pos hc] at h
      exact ih _ _ h
    · rw [parseDigitsAux, if_neg hc] at h
      exact absurd h (by simp)

theorem parseDigits_all_digits : ∀ (l : List Char) (n : Nat),
    parseDigits l = some n → (!l.isEmpty) = true ∧ l.all isDigitChar = true := by
  intro l n h
  cases l with
  | nil => exact absurd h (by simp [parseDigits])
  | cons c t =>
    rw [parseDigits_cons] at h
    exact ⟨rfl, parseDigitsAux_all_digits _ _ _ h⟩

theorem takeWhile_eq_self_of_all {p : Char → Bool} :
    ∀ {l : List Char}, l.all p = true → l.takeWhile p = l := by
  intro l h
  induction l with
  | nil => rfl
  | cons c t ih =>
    rw [List.all_cons, Bool.and_eq_true] at h
    rw [List.takeWhile_cons_of_pos h.1, ih h.2]

theorem dropWhile_eq_nil_of_all {p : Char → Bool} :
    ∀ {l : List Char}, l.all p = true → l.dropWhile p = [] := by
  intro l h
  induction l with
  | nil => rfl
  | cons c t ih =>
    rw [List.all_cons, Bool.and_eq_true] at h
    rw [List.dropWhile_cons_of_pos h.1, ih h.2]

theorem digit_ne_marker {c : Char} (h : isDigitChar c = true) :
    (c == 'x') = false ∧ (c == 'X') = false ∧ (c == 'o') = false ∧ (c == 'O') = false ∧
      (c == 'b') = false ∧ (c == 'B') = false := by
  unfold isDigitChar at h
  rw [Bool.and_eq_true, decide_eq_true_iff, decide_eq_true_iff] at h
  refine ⟨?_, ?_, ?_, ?_, ?_, ?_⟩ <;>
    (rw [beq_eq_false_iff_ne]; rintro rfl; exact absurd h (by decide))

theorem isUnsignedDec_of_digits {l : List Char} (hne : l ≠ [])
    (hall : l.all isDigitChar = true) : isUnsignedDec l = true := by
  have hinf : l ≠ "Infinity".data := by
    intro heq
    have hmem : 'I' ∈ l := by rw [heq]; decide
    have : isDigitChar 'I' = true := List.all_eq_true.mp hall _ hmem
    exact absurd this (by decide)
  have hempty : l.isEmpty = false := by simpa using hne
  unfold isUnsignedDec
  rw [if_neg hinf, takeWhile_eq_self_of_all hall, dropWhile_eq_nil_of_all hall]
  simp [hempty]

theorem jsNumberChars_num (l : List Char) (v : Int) (h : jsNumberChars l = some v) :
    isNumLitChars l = true := by
  cases l with
  | nil => rfl
  | cons c t =>
    simp only [jsNumberChars] at h
    by_cases hminus : c = '-'
    · rw [if_pos hminus] at h
      obtain ⟨n, hn, -⟩ := Option.map_eq_some'.mp h
      obtain ⟨hne, hall⟩ := parseDigits_all_digits t n hn
      subst hminus
      cases t with
      | nil => exact absurd hne (by decide)
      | cons c2 r =>
        simp only [isNumLitChars]
        rw [if_neg (by decide : ¬ ('-' : Char) = '0'),
          if_pos (by decide : ((('-' : Char) == '+') || (('-' : Char) == '-')) = true)]
        exact isUnsignedDec_of_digits (by simp) hall
    · by_cases hplus : c = '+'
      · rw [if_neg hminus, if_pos hplus] at h
        obtain ⟨n, hn, -⟩ := Option.map_eq_some'.mp h
        obtain ⟨hne, hall⟩ := parseDigits_all_digits t n hn
        subst hplus
        cases t with
        | nil => exact absurd hne (by decide)
        | cons c2 r =>
          simp only [isNumLitChars]
          rw [if_neg (by decide : ¬ ('+' : Char) = '0'),
            if_pos (by decide : ((('+' : Char) == '+') || (('+' : Char) == '-')) = true)]
          exact isUnsignedDec_of_digits (by simp) hall
      · rw [if_neg hminus, if_neg hplus] at h
        obtain ⟨n, hn, -⟩ := Option.map_eq_some'.mp h
        obtain ⟨-, hall⟩ := parseDigits_all_digits (c :: t) n hn
        have hallc := hall
        rw [List.all_cons, Bool.and_eq_true] at hallc
        have hcdig : isDigitChar c = true := hallc.1
        have hsign : ¬ ((c == '+') || (c == '-')) = true := by
          obtain ⟨-, -, hm, hp, -⟩ := isDigitChar_not_special hcdig
          rw [Bool.or_eq_true]
          rintro (hx | hx)
          · exact hp (by simpa using hx)
          · exact hm (by simpa using hx)
        cases t with
        | nil =>
          simp only [isNumLitChars]
          rw [if_neg hsign]
          exact isUnsignedDec_of_digits (by simp) hall
        | cons c2 r =>
          have hc2dig : isDigitChar c2 = true := by
            have := hallc.2
            rw [List.all_cons, Bool.and_eq_true] at this
            exact this.1
          obtain ⟨hx, hX, ho, hO, hb, hB⟩ := digit_ne_marker hc2dig
          simp only [isNumLitChars]
          by_cases hc0 : c = '0'
          · rw [if_pos hc0,
              if_neg (by rw [hx, hX]; simp : ¬ ((c2 == 'x') || (c2 == 'X')) = true),
              if_neg (by rw [ho, hO]; simp : ¬ ((c2 == 'o') || (c2 == 'O')) = true),
              if_neg (by rw [hb, hB]; simp : ¬ ((c2 == 'b') || (c2 == 'B')) = true)]
            rw [← hc0]
            exact isUnsignedDec_of_digits (by simp) hall
          · rw [if_neg hc0, if_neg hsign]
            exact isUnsignedDec_of_digits (by simp) hall

theorem jsNumber_num (s : String) (v : Int) (h : jsNumber s = some v) :
    isJsNumeral s = true :=
  jsNumberChars_num _ v h

theorem cleanStr_append {a b : String} (ha : cleanStr a) (hb : cleanStr b) :
    cleanStr (a ++ b) := by
  intro c hc
  rw [String.data_append] at hc
  rcases List.mem_append.mp hc with hc | hc
  · exact ha c hc
  · exact hb c hc

theorem cleanStr_natToStr (n : Nat) : cleanStr (natToStr n) := by
  intro c hc
  obtain ⟨h1, h2, -⟩ := isDigitChar_not_special (natToStr_chars n c hc)
  exact ⟨h1, h2⟩

theorem cleanStr_intToStr (v : Int) : cleanStr (intToStr v) := by
  cases v with
  | ofNat n => exact cleanStr_natToStr n
  | negSucc m =>
    show cleanStr ("-" ++ natToStr (m + 1))
    exact cleanStr_append (by intro c hc; rw [List.mem_singleton] at hc; subst hc; decide)
      (cleanStr_natToStr (m + 1))

theorem cleanStr_sign (v : Int) : cleanStr (if v < 0 then "-" else "") := by
  split
  · intro c hc; rw [List.mem_singleton] at hc; subst hc; decide
  · intro c hc; exact absurd hc (by simp [show ("" : String).data = [] from rfl])

theorem cleanStr_padLeft {s : String} (hs : cleanStr s) (d : Nat) : cleanStr (padLeft s d) := by
  unfold padLeft
  split
  · refine cleanStr_append ?_ hs
    intro c hc
    have : c = '0' := List.eq_of_mem_replicate hc
    subst this; decide
  · exact hs

theorem cleanStr_dash : cleanStr "-" := by
  intro c hc; rw [List.mem_singleton] at hc; subst hc; decide

theorem cleanStr_dot : cleanStr "." := by
  intro c hc; rw [List.mem_singleton] at hc; subst hc; decide

theorem cleanStr_empty : cleanStr "" := by
  intro c hc; exact absurd hc (by simp [show ("" : String).data = [] from rfl])

theorem cleanStr_take {s : String} (hs : cleanStr s) (k : Nat) :
    cleanStr (⟨s.data.take k⟩ : String) := fun c hc => hs c (List.take_subset _ _ hc)

theorem cleanStr_drop {s : String} (hs : cleanStr s) (k : Nat) :
    cleanStr (⟨s.data.drop k⟩ : String) := fun c hc => hs c (List.drop_subset _ _ hc)

theorem cleanStr_fracToFixed (f : Frac) (d : Nat) : cleanStr (fracToFixed f d) := by
  have hpad := cleanStr_padLeft
    (cleanStr_natToStr ((2 * (f.num.natAbs * 10 ^ d) + f.den) / (2 * f.den))) d
  unfold fracToFixed
  split <;> split
  all_goals first
    | exact cleanStr_append cleanStr_dash (cleanStr_natToStr _)
    | exact cleanStr_append cleanStr_empty (cleanStr_natToStr _)
    | exact cleanStr_append
        (cleanStr_append (cleanStr_append cleanStr_dash (cleanStr_take hpad _)) cleanStr_dot)
        (cleanStr_drop hpad _)
    | exact cleanStr_append
        (cleanStr_append (cleanStr_append cleanStr_empty (cleanStr_take hpad _)) cleanStr_dot)
        (cleanStr_drop hpad _)

/-! ## The CSV field splitter inverts the export's rendering -/

theorem escQuoted_data (s : String) :
    (escQuoted s).data = '"' :: (escChars s.data ++ ['"']) := by
  unfold escQuoted
  rw [String.data_append, String.data_append]
  rfl

theorem splitGo_clean_end : ∀ (s cur : List Char), (∀ c ∈ s, c ≠ ',' ∧ c ≠ '"') →
    splitGo false s cur = [cur.reverse ++ s] := by
  intro s
  induction s with
  | nil => intro cur _; simp [splitGo]
  | cons c t ih =>
    intro cur h
    obtain ⟨hc, hq⟩ := h c (by simp)
    rw [show splitGo false (c :: t) cur = splitGo false t (c :: cur) by
      simp [splitGo, hc, hq]]
    rw [ih (c :: cur) (fun x hx => h x (by simp [hx]))]
    simp

theorem splitGo_clean_comma : ∀ (s t cur : List Char), (∀ c ∈ s, c ≠ ',' ∧ c ≠ '"') →
    splitGo false (s ++ ',' :: t) cur = (cur.reverse ++ s) :: splitGo false t [] := by
  intro s
  induction s with
  | nil =>
    intro t cur _
    simp [splitGo]
  | cons c s' ih =>
    intro t cur h
    obtain ⟨hc, hq⟩ := h c (by simp)
    rw [List.cons_append]
    rw [show splitGo false (c :: (s' ++ ',' :: t)) cur = splitGo false (s' ++ ',' :: t) (c :: cur) by
      simp [splitGo, hc, hq]]
    rw [ih t (c :: cur) (fun x hx => h x (by simp [hx]))]
    simp

theorem splitGo_true_cons_ne {c : Char} (t cur : List Char) (hc : ¬ c = '"') :
    splitGo true (c :: t) cur = splitGo true t (c :: cur) := by
  rw [splitGo.eq_def]
  simp only [if_neg hc]

theorem splitGo_true_esc (t cur : List Char) :
    splitGo true ('"' :: '"' :: t) cur = splitGo true t ('"' :: cur) := rfl

theorem splitGo_true_close {c2 : Char} (t2 cur : List Char) (hc2 : ¬ c2 = '"') :
    splitGo true ('"' :: c2 :: t2) cur = splitGo false (c2 :: t2) cur := by
  rw [splitGo.eq_def]
  simp only [if_pos rfl, if_neg hc2]
  simp

theorem splitGo_quoted : ∀ (s r cur : List Char), (∀ t2, r ≠ '"' :: t2) →
    splitGo true (escChars s ++ '"' :: r) cur = splitGo false r (s.reverse ++ cur) := by
  intro s
  induction s with
  | nil =>
    intro r cur hr
    rw [show escChars [] = [] from rfl, List.nil_append]
    cases r with
    | nil => rfl
    | cons c2 t2 =>
      have hc2 : ¬ c2 = '"' := fun h => hr t2 (by rw [h])
      rw [splitGo_true_close t2 cur hc2]
      rfl
  | cons c s' ih =>
    intro r cur hr
    by_cases hc : c = '"'
    · subst hc
      rw [show escChars ('"' :: s') = '"' :: '"' :: escChars s' by simp [escChars],
        List.cons_append, List.cons_append, splitGo_true_esc, ih r ('"' :: cur) hr]
      simp
    · rw [show escChars (c :: s') = c :: escChars s' by simp [escChars, hc], List.cons_append,
        splitGo_true_cons_ne _ _ hc, ih r (c :: cur) hr]
      simp

theorem splitGo_open_quote (r : List Char) :
    splitGo false ('"' :: r) [] = splitGo true r [] := rfl

theorem splitGo_comma (r cur : List Char) :
    splitGo false (',' :: r) cur = cur.reverse :: splitGo false r [] := rfl

theorem splitGo_nil_false (cur : List Char) : splitGo false [] cur = [cur.reverse] := rfl

theorem splitGo_render : ∀ (cells : List CsvCell), cells ≠ [] → (∀ c ∈ cells, cellOk c) →
    splitGo false (joinCommaChars (cells.map (fun c => (renderCell c).data))) []
      = cells.map (fun c => (cellVal c).data) := by
  intro cells
  induction cells with
  | nil => intro hne _; exact absurd rfl hne
  | cons x rest ih =>
    intro _ hok
    cases rest with
    | nil =>
      simp only [List.map_cons, List.map_nil]
      rw [show joinCommaChars [(renderCell x).data] = (renderCell x).data from rfl]
      cases x with
      | raw s =>
        have hs : cleanStr s := hok (.raw s) (by simp)
        rw [show (renderCell (.raw s)).data = s.data from rfl, splitGo_clean_end s.data [] hs]
        rfl
      | quoted s =>
        rw [show (renderCell (.quoted s)).data = (escQuoted s).data from rfl, escQuoted_data,
          splitGo_open_quote,
          show (['"'] : List Char) = '"' :: [] from rfl,
          splitGo_quoted s.data [] [] (fun t2 h => List.noConfusion h),
          splitGo_nil_false]
        simp [cellVal]
    | cons y t =>
      have hne2 : (y :: t : List CsvCell) ≠ [] := by simp
      have hok2 : ∀ c ∈ y :: t, cellOk c := fun c hc => hok c (by simp [hc])
      simp only [List.map_cons]
      rw [show joinCommaChars ((renderCell x).data :: (renderCell y).data :: t.map (fun c => (renderCell c).data))
          = (renderCell x).data ++ ',' :: joinCommaChars ((renderCell y).data :: t.map (fun c => (renderCell c).data)) from rfl]
      have hihform : splitGo false (joinCommaChars ((renderCell y).data :: t.map (fun c => (renderCell c).data))) []
          = (cellVal y).data :: t.map (fun c => (cellVal c).data) := by
        have := ih hne2 hok2
        simpa using this
      cases x with
      | raw s =>
        have hs : cleanStr s := hok (.raw s) (by simp)
        rw [show (renderCell (.raw s)).data = s.data from rfl,
          splitGo_clean_comma s.data _ [] hs, hihform]
        rfl
      | quoted s =>
        rw [show (renderCell (.quoted s)).data = (escQuoted s).data from rfl, escQuoted_data]
        rw [show ('"' :: (escChars s.data ++ ['"'])) ++ ',' :: joinCommaChars ((renderCell y).data :: t.map (fun c => (renderCell c).data))
            = '"' :: (escChars s.data ++ '"' :: (',' :: joinCommaChars ((renderCell y).data :: t.map (fun c => (renderCell c).data)))) by
          simp]
        rw [splitGo_open_quote,
          splitGo_quoted s.data _ [] (fun t2 h => by
            have := List.head_eq_of_cons_eq h
            exact absurd this (by decide)),
          List.append_nil, splitGo_comma, hihform, List.reverse_reverse]
        rfl

theorem joinComma_data : ∀ (l : List String), (joinComma l).data = joinCommaChars (l.map String.data) := by
  intro l
  induction l with
  | nil => rfl
  | cons s t ih =>
    cases t with
    | nil => rfl
    | cons y t2 =>
      rw [show joinComma (s :: y :: t2) = s ++ "," ++ joinComma (y :: t2) from rfl,
        String.data_append, String.data_append, ih, List.append_assoc]
      rfl

theorem splitCsvLine_joinComma (cells : List CsvCell) (hne : cells ≠ [])
    (hok : ∀ c ∈ cells, cellOk c) :
    splitCsvLine (joinComma (cells.map renderCell)) = cells.map cellVal := by
  unfold splitCsvLine
  rw [joinComma_data, List.map_map]
  rw [show (String.data ∘ renderCell) = (fun c => (renderCell c).data) from rfl]
  rw [splitGo_render cells hne hok, List.map_map]
  exact List.map_congr_left (fun c _ => rfl)

/-! ## Association-list lookup facts -/

theorem lookup_map_self {β : Type} : ∀ (ks : List String) (g : String → β) (y : String),
    y ∈ ks → List.lookup y (ks.map (fun k => (k, g k))) = some (g y) := by
  intro ks g y hy
  induction ks with
  | nil => simp at hy
  | cons k t ih =>
    rcases List.mem_cons.mp hy with rfl | hy
    · simp [List.lookup]
    · by_cases hk : y = k
      · subst hk; simp [List.lookup]
      · simp only [List.map_cons, List.lookup, beq_eq_false_iff_ne.mpr hk]
        exact ih hy

theorem lookup_eq_none_of_not_mem {β : Type} :
    ∀ (al : List (String × β)) (y : String), y ∉ al.map Prod.fst → List.lookup y al = none := by
  intro al y h
  induction al with
  | nil => rfl
  | cons kv t ih =>
    obtain ⟨k, v⟩ := kv
    simp only [List.map_cons, List.mem_cons, not_or] at h
    simp only [List.lookup, beq_eq_false_iff_ne.mpr h.1]
    exact ih h.2

theorem lookup_eq_of_mem_nodup {β : Type} :
    ∀ (al : List (String × β)) (y : String) (v : β), (al.map Prod.fst).Nodup →
      (y, v) ∈ al → List.lookup y al = some v := by
  intro al y v hnd hmem
  induction al with
  | nil => simp at hmem
  | cons kv t ih =>
    obtain ⟨k, w⟩ := kv
    rw [List.map_cons, List.nodup_cons] at hnd
    rcases List.mem_cons.mp hmem with heq | hmem2
    · cases heq
      simp [List.lookup]
    · by_cases hk : y = k
      · subst hk
        exact absurd (List.mem_map.mpr ⟨(y, v), hmem2, rfl⟩) hnd.1
      · simp only [List.lookup, beq_eq_false_iff_ne.mpr hk]
        exact ih hnd.2 hmem2

theorem lookup_zip_not_mem {β : Type} :
    ∀ (ks : List String) (vs : List β) (y : String), y ∉ ks →
      List.lookup y (ks.zip vs) = none := by
  intro ks
  induction ks with
  | nil => intro vs y _; rfl
  | cons k t ih =>
    intro vs y hy
    cases vs with
    | nil => rfl
    | cons v vt =>
      simp only [List.mem_cons, not_or] at hy
      simp only [List.zip_cons_cons, List.lookup, beq_eq_false_iff_ne.mpr hy.1]
      exact ih vt y hy.2

theorem lookup_zip_found {β : Type} :
    ∀ (ks1 : List String) (vs1 : List β) (ks2 : List String) (vs2 : List β) (y : String) (v : β),
      ks1.length = vs1.length → y ∉ ks1 →
      List.lookup y ((ks1 ++ y :: ks2).zip (vs1 ++ v :: vs2)) = some v := by
  intro ks1
  induction ks1 with
  | nil =>
    intro vs1 ks2 vs2 y v hlen _
    rw [List.length_nil] at hlen
    rw [List.eq_nil_of_length_eq_zero hlen.symm]
    simp [List.lookup]
  | cons k t ih =>
    intro vs1 ks2 vs2 y v hlen hy
    cases vs1 with
    | nil => simp at hlen
    | cons w wt =>
      simp only [List.mem_cons, not_or] at hy
      simp only [List.cons_append, List.zip_cons_cons, List.lookup,
        beq_eq_false_iff_ne.mpr hy.1]
      exact ih wt ks2 vs2 y v (by simpa using hlen) hy.2

/-! ## Summing a record's counts over an index that covers its keys -/

theorem sum_lookup_eq :
    ∀ (al : List (String × Int)) (ys : List String), (al.map Prod.fst).Nodup → ys.Nodup →
      (∀ k ∈ al.map Prod.fst, k ∈ ys) →
      (ys.map (fun y => (List.lookup y al).getD 0)).sum = (al.map Prod.snd).sum := by
  intro al
  induction al with
  | nil =>
    intro ys _ _ _
    rw [List.map_nil, List.sum_nil]
    exact List.sum_eq_zero (by intro x hx; obtain ⟨y, -, rfl⟩ := List.mem_map.mp hx; rfl)
  | cons kv t ih =>
    intro ys hnd hys hsub
    obtain ⟨k, v⟩ := kv
    rw [List.map_cons, List.nodup_cons] at hnd
    have hk : k ∈ ys := hsub k (by simp)
    have hperm : ys.Perm (k :: ys.erase k) := List.perm_cons_erase hk
    have herase : ∀ y ∈ ys.erase k, y ≠ k := by
      intro y hy
      exact ((List.Nodup.mem_erase_iff hys).mp hy).1
    have hcons : ∀ (y : String), y ≠ k →
        (List.lookup y ((k, v) :: t)).getD 0 = (List.lookup y t).getD 0 := by
      intro y hy
      simp [List.lookup, beq_eq_false_iff_ne.mpr hy]
    have hsum1 : (ys.map (fun y => (List.lookup y ((k, v) :: t)).getD 0)).sum
        = v + ((ys.erase k).map (fun y => (List.lookup y ((k, v) :: t)).getD 0)).sum := by
      rw [(hperm.map _).sum_eq]
      simp [List.lookup]
    have hsum2 : ((ys.erase k).map (fun y => (List.lookup y ((k, v) :: t)).getD 0)).sum
        = ((ys.erase k).map (fun y => (List.lookup y t).getD 0)).sum := by
      rw [List.map_congr_left (fun y hy => hcons y (herase y hy))]
    have hsum3 : (ys.map (fun y => (List.lookup y t).getD 0)).sum
        = ((ys.erase k).map (fun y => (List.lookup y t).getD 0)).sum := by
      rw [(hperm.map _).sum_eq]
      rw [List.map_cons, List.sum_cons, lookup_eq_none_of_not_mem t k hnd.1]
      simp
    have hih : (ys.map (fun y => (List.lookup y t).getD 0)).sum = (t.map Prod.snd).sum := by
      refine ih ys hnd.2 hys ?_
      intro x hx
      exact hsub x (by simp [hx])
    rw [hsum1, hsum2, ← hsum3, hih]
    rfl

/-! ## The unanchored year pattern characterized as substring containment -/

theorem yearPatAt_iff (l : List Char) : yearPatAt l = true ↔
    ∃ (a b c d e f : Char) (rest : List Char),
      l = a :: b :: c :: d :: '-' :: e :: f :: rest ∧
      isDigitChar a = true ∧ isDigitChar b = true ∧ isDigitChar c = true ∧
      isDigitChar d = true ∧ isDigitChar e = true ∧ isDigitChar f = true := by
  constructor
  · intro h
    rw [yearPatAt.eq_def] at h
    split at h
    next a b c d e f rest =>
      simp only [Bool.and_eq_true] at h
      exact ⟨a, b, c, d, e, f, rest, rfl, h.1.1.1.1.1, h.1.1.1.1.2, h.1.1.1.2, h.1.1.2, h.1.2, h.2⟩
    next => exact absurd h (by simp)
  · rintro ⟨a, b, c, d, e, f, rest, rfl, ha, hb, hc, hd, he, hf⟩
    show (isDigitChar a && isDigitChar b && isDigitChar c && isDigitChar d &&
      isDigitChar e && isDigitChar f) = true
    simp [ha, hb, hc, hd, he, hf]

theorem hasYearPat_iff : ∀ (l : List Char), hasYearPat l = true ↔
    ∃ (p : List Char) (a b c d e f : Char) (q : List Char),
      l = p ++ a :: b :: c :: d :: '-' :: e :: f :: q ∧
      isDigitChar a = true ∧ isDigitChar b = true ∧ isDigitChar c = true ∧
      isDigitChar d = true ∧ isDigitChar e = true ∧ isDigitChar f = true := by
  intro l
  induction l with
  | nil =>
    simp only [hasYearPat]
    constructor
    · intro h; exact absurd h (by simp)
    · rintro ⟨p, a, b, c, d, e, f, q, heq, -⟩
      exact absurd heq.symm (by simp)
  | cons x t ih =>
    rw [show hasYearPat (x :: t) = (yearPatAt (x :: t) || hasYearPat t) from rfl, Bool.or_eq_true,
      yearPatAt_iff, ih]
    constructor
    · rintro (⟨a, b, c, d, e, f, rest, heq, hdigs⟩ | ⟨p, a, b, c, d, e, f, q, heq, hdigs⟩)
      · exact ⟨[], a, b, c, d, e, f, rest, by simpa using heq, hdigs⟩
      · exact ⟨x :: p, a, b, c, d, e, f, q, by rw [heq]; rfl, hdigs⟩
    · rintro ⟨p, a, b, c, d, e, f, q, heq, hdigs⟩
      cases p with
      | nil =>
        exact Or.inl ⟨a, b, c, d, e, f, q, by simpa using heq, hdigs⟩
      | cons x' p' =>
        have h2 : t = p' ++ a :: b :: c :: d :: '-' :: e :: f :: q := by
          have h := congrArg List.tail heq
          simpa using h
        exact Or.inr ⟨p', a, b, c, d, e, f, q, h2, hdigs⟩

/-! ## Stability of the sort stage -/

theorem sortRelB_iff (k d : String) (p q : Nat × ViewRow) :
    sortRelB k d p q = true ↔
      ((dirVal k d p.2).toRat < (dirVal k d q.2).toRat ∨
        ((dirVal k d p.2).toRat = (dirVal k d q.2).toRat ∧ p.1 ≤ q.1)) := by
  unfold sortRelB
  rw [Bool.or_eq_true, Bool.and_eq_true, Frac.ltB_iff, Frac.eqB_iff, decide_eq_true_iff]

theorem sortRel_trans (k d : String) : ∀ p q r : Nat × ViewRow,
    sortRelB k d p q = true → sortRelB k d q r = true → sortRelB k d p r = true := by
  intro p q r hpq hqr
  rw [sortRelB_iff] at hpq hqr ⊢
  rcases hpq with hpq | ⟨hpq, hpq2⟩ <;> rcases hqr with hqr | ⟨hqr, hqr2⟩
  · exact Or.inl (lt_trans hpq hqr)
  · exact Or.inl (hqr ▸ hpq)
  · exact Or.inl (hpq ▸ hqr)
  · exact Or.inr ⟨hpq.trans hqr, le_trans hpq2 hqr2⟩

theorem sortRel_total (k d : String) : ∀ p q : Nat × ViewRow,
    sortRelB k d p q = true ∨ sortRelB k d q p = true := by
  intro p q
  rw [sortRelB_iff, sortRelB_iff]
  rcases lt_trichotomy (dirVal k d p.2).toRat (dirVal k d q.2).toRat with h | h | h
  · exact Or.inl (Or.inl h)
  · rcases Nat.le_total p.1 q.1 with hle | hle
    · exact Or.inl (Or.inr ⟨h, hle⟩)
    · exact Or.inr (Or.inr ⟨h.symm, hle⟩)
  · exact Or.inr (Or.inl h)

theorem pairwise_strict_sublist {α : Type} {r : α → α → Prop} :
    ∀ {l : List α}, l.Pairwise r → ∀ {a b : α}, a ∈ l → b ∈ l → r a b → ¬ r b a →
      [a, b].Sublist l := by
  intro l hp
  induction l with
  | nil => intro a b ha _ _ _; simp at ha
  | cons x t ih =>
    intro a b ha hb hr hnr
    rw [List.pairwise_cons] at hp
    rcases List.mem_cons.mp ha with rfl | hat
    · rcases List.mem_cons.mp hb with rfl | hbt
      · exact absurd hr hnr
      · exact (List.singleton_sublist.mpr hbt).cons₂ a
    · rcases List.mem_cons.mp hb with rfl | hbt
      · exact absurd (hp.1 a hat) hnr
      · exact (ih hp.2 hat hbt hr hnr).cons x

theorem sortedEnum_pairwise (k d : String) (l : List ViewRow) :
    List.Pairwise (fun p q => sortRelB k d p q = true) (sortedEnum k d l) := by
  haveI htot : IsTotal (Nat × ViewRow) (fun p q => sortRelB k d p q = true) :=
    ⟨sortRel_total k d⟩
  haveI htr : IsTrans (Nat × ViewRow) (fun p q => sortRelB k d p q = true) :=
    ⟨sortRel_trans k d⟩
  exact List.sorted_insertionSort _ l.enum

theorem mem_sortedEnum_of_get (k d : String) (l : List ViewRow) (i : Nat) (hi : i < l.length) :
    (i, l.get ⟨i, hi⟩) ∈ sortedEnum k d l := by
  have hlen : i < l.enum.length := by simpa using hi
  have hgot : l.enum.get ⟨i, hlen⟩ = (i, l.get ⟨i, hi⟩) := by
    simp [List.get_eq_getElem, List.getElem_enum]
  have hmem : (i, l.get ⟨i, hi⟩) ∈ l.enum := by
    rw [← hgot]
    exact List.get_mem l.enum i hlen
  exact ((List.perm_insertionSort _ l.enum).mem_iff).mpr hmem

theorem dirVal_toRat_eq {k d : String} {v w : ViewRow}
    (h : (sortVal k v).toRat = (sortVal k w).toRat) :
    (dirVal k d v).toRat = (dirVal k d w).toRat := by
  unfold dirVal
  split
  · exact h
  · rw [Frac.toRat_neg, Frac.toRat_neg, h]

/-! ## Shared small facts for the claim theorems -/

theorem cleanStr_of_all (s : String)
    (h : s.data.all (fun c => !(c == ',') && !(c == '"')) = true) : cleanStr s := by
  intro c hc
  have := List.all_eq_true.mp h c hc
  simp only [Bool.and_eq_true, Bool.not_eq_true', beq_eq_false_iff_ne] at this
  exact this

theorem tidyRow_years (row : RawRow) :
    (tidyRow row).years = ((row.map Prod.fst).filter isYearLike).map
      (fun k => (k, coerceCell ((List.lookup k row).getD none))) := rfl

theorem idxOf_absent (ys : List String) (s : String) (h : s ∉ ys) : idxOf ys s = -1 := by
  unfold idxOf
  rw [List.findIdx?_eq_none_iff.mpr
    (fun x hx => beq_eq_false_iff_ne.mpr (fun hxy => h (by rw [← hxy]; exact hx)))]

/-! ## The claims -/

/-- Claim C1: for a nonempty year index, the Deactivation Assessor flags a
record exactly when, over the last 5 labels of the index (or all labels if
fewer exist), the total is below 15 with the average (total over number of
labels used) below 3, or at least 3 of the counts are zero, or the peak
count is below 3; for an empty index it returns the unflagged "No years"
result. -/
theorem assess_flag_characterization (r : DashRec) (ys : List String) :
    (ys ≠ [] →
      ((assessRecDeact r ys).flag = true ↔
        ((total5Of r ys < 15 ∧ avg5Of r ys < 3) ∨ 3 ≤ zerosOf r ys ∨ peakOf r ys < 3)))
    ∧ (ys = [] → assessRecDeact r ys = ⟨false, "No years"⟩) := by
  constructor
  · intro hne
    have hlen : ¬ (last5Of ys).length = 0 := by
      unfold last5Of
      rw [List.length_drop]
      have : 0 < ys.length := List.length_pos.mpr hne
      omega
    have hflag : (assessRecDeact r ys).flag =
        ((decide (total5Of r ys < REC_MIN_TOTAL_5Y) &&
            Frac.ltB ⟨total5Of r ys, (last5Of ys).length, Nat.pos_of_ne_zero hlen⟩
              (Frac.ofInt REC_MIN_AVG_5Y)) ||
          decide (3 ≤ zerosOf r ys) || decide (peakOf r ys < REC_MIN_PEAK_5Y)) := by
      unfold assessRecDeact
      rw [dif_neg hlen]
      dsimp only
      split
      next hcond => exact hcond.symm
      next hcond => exact (Bool.eq_false_iff.mpr hcond).symm
    rw [hflag, Bool.or_eq_true, Bool.or_eq_true, Bool.and_eq_true, Frac.ltB_iff,
      decide_eq_true_iff, decide_eq_true_iff, decide_eq_true_iff]
    have havg : Frac.toRat ⟨total5Of r ys, (last5Of ys).length, Nat.pos_of_ne_zero hlen⟩
        = avg5Of r ys := rfl
    have hthree : (Frac.ofInt REC_MIN_AVG_5Y).toRat = 3 := by
      show ((3 : Int) : ℚ) / ((1 : Nat) : ℚ) = 3
      norm_num
    rw [havg, hthree]
    show ((total5Of r ys < 15 ∧ avg5Of r ys < 3) ∨ 3 ≤ zerosOf r ys) ∨ peakOf r ys < 3 ↔ _
    tauto
  · intro h
    subst h
    rfl

/-- Claim C1 witness: the characterization applied to a concrete healthy
record over a five-label index, and to the empty index. -/
theorem assess_flag_characterization_w :
    ((assessRecDeact recA ys9).flag = true ↔
      ((total5Of recA ys9 < 15 ∧ avg5Of recA ys9 < 3) ∨ 3 ≤ zerosOf recA ys9 ∨
        peakOf recA ys9 < 3))
    ∧ assessRecDeact recA [] = ⟨false, "No years"⟩ :=
  ⟨(assess_flag_characterization recA ys9).1 (by decide),
    (assess_flag_characterization recA []).2 rfl⟩

/-- Claim C5: range resolution is order-insensitive — resolving
(end, start) yields the same ordered slice as resolving (start, end) for
labels present in the index. -/
theorem resolveRange_comm (ys : List String) (s e : String)
    (hs : s ∈ ys) (he : e ∈ ys) :
    resolveRange ys (some e) (some s) = resolveRange ys (some s) (some e) := by
  unfold resolveRange
  by_cases h0 : ys.isEmpty = true
  · simp [h0]
  · by_cases h1 : s = ""
    · simp [truthyStr, h1]
    · by_cases h2 : e = ""
      · simp [truthyStr, h2]
      · have hb0 : ys.isEmpty = false := by simpa using h0
        have ht1 : truthyStr (some s) = true := by simp [truthyStr, h1]
        have ht2 : truthyStr (some e) = true := by simp [truthyStr, h2]
        simp only [hb0, ht1, ht2, Bool.not_true, Bool.or_false, Bool.false_or, Option.getD_some,
          if_false, Bool.false_eq_true]
        by_cases h3 : idxOf ys e = -1 <;> by_cases h4 : idxOf ys s = -1
        · simp [h3, h4]
        · simp [h3, h4]
        · simp [h3, h4]
        · rw [if_neg (by tauto), if_neg (by tauto), min_comm, max_comm]

/-- Claim C5 witness: swapping a concrete in-index pair of endpoints. -/
theorem resolveRange_comm_w :
    resolveRange ys9 (some "2022-23") (some "2020-21")
      = resolveRange ys9 (some "2020-21") (some "2022-23") :=
  resolveRange_comm ys9 "2020-21" "2022-23" (by decide) (by decide)

/-- Claim C6: if either endpoint of the requested range is absent from the
year index, resolution falls back to the entire index (and, being a total
function, raises no error). -/
theorem resolveRange_fallback (ys : List String) (s e : String)
    (h : s ∉ ys ∨ e ∉ ys) :
    resolveRange ys (some s) (some e) = ys := by
  unfold resolveRange
  by_cases h0 : ys.isEmpty = true
  · simp [h0]
  · by_cases h1 : s = ""
    · simp [truthyStr, h1]
    · by_cases h2 : e = ""
      · simp [truthyStr, h2]
      · have hb0 : ys.isEmpty = false := by simpa using h0
        have ht1 : truthyStr (some s) = true := by simp [truthyStr, h1]
        have ht2 : truthyStr (some e) = true := by simp [truthyStr, h2]
        simp only [hb0, ht1, ht2, Bool.not_true, Bool.or_false, Bool.false_or, Option.getD_some,
          if_false, Bool.false_eq_true]
        rcases h with h | h
        · rw [if_pos (Or.inl (idxOf_absent ys s h))]
        · rw [if_pos (Or.inr (idxOf_absent ys e h))]

/-- Claim C6 witness: a concrete absent end label falls back to the index. -/
theorem resolveRange_fallback_w :
    resolveRange ys9 (some "2020-21") (some "2031-32") = ys9 :=
  resolveRange_fallback ys9 "2020-21" "2031-32" (Or.inr (by decide))

/-- Claim C7: the deactivation flag and reason attached by the pipeline
depend only on the record and the full year index — any two visible-range
choices produce identical values, namely the assessor's output on the full
index. -/
theorem recDeact_range_independent (rows : List DashRec) (r : DashRec)
    (s1 e1 s2 e2 : Option String) :
    (annotateRow (resolveRange (allYearsOf rows) s1 e1) (allYearsOf rows) r).recDeact
      = (annotateRow (resolveRange (allYearsOf rows) s2 e2) (allYearsOf rows) r).recDeact
    ∧ (annotateRow (resolveRange (allYearsOf rows) s1 e1) (allYearsOf rows) r).recDeactReason
      = (annotateRow (resolveRange (allYearsOf rows) s2 e2) (allYearsOf rows) r).recDeactReason
    ∧ (annotateRow (resolveRange (allYearsOf rows) s1 e1) (allYearsOf rows) r).recDeact
      = (assessRecDeact r (allYearsOf rows)).flag :=
  ⟨rfl, rfl, rfl⟩

/-- Claim C4: with the visible range equal to the full year index, each
record's totalRange is exactly the sum of all values in its years mapping. -/
theorem totalRange_full_index (rows : List DashRec) (r : DashRec) (hr : r ∈ rows)
    (hnd : (r.years.map Prod.fst).Nodup) :
    (annotateRow (allYearsOf rows) (allYearsOf rows) r).totalRange
      = (r.years.map Prod.snd).sum := by
  show ((allYearsOf rows).map (yearVal r)).sum = _
  have hys : (allYearsOf rows).Nodup :=
    ((List.perm_insertionSort _ _).nodup_iff).mpr (List.nodup_dedup _)
  have hsub : ∀ k ∈ r.years.map Prod.fst, k ∈ allYearsOf rows := by
    intro k hk
    unfold allYearsOf
    rw [(List.perm_insertionSort _ _).mem_iff, List.mem_dedup]
    exact List.mem_flatMap.mpr ⟨r, hr, hk⟩
  exact sum_lookup_eq r.years (allYearsOf rows) hnd hys hsub

/-- Claim C4 witness: a two-record set whose index interleaves their year
labels. -/
theorem totalRange_full_index_w :
    (annotateRow (allYearsOf [recT, recT2]) (allYearsOf [recT, recT2]) recT).totalRange
      = (recT.years.map Prod.snd).sum :=
  totalRange_full_index [recT, recT2] recT (by decide) (by decide)

/-- Claim C8: the sort stage is stable — rows with equal sort-key values
keep their pre-sort relative order; the sorted output is the
position-decorated sort with the decoration dropped. -/
theorem sort_stage_stable (k d : String) (l : List ViewRow) (i j : Nat)
    (hij : i < j) (hj : j < l.length)
    (hkey : (sortVal k (l.get ⟨i, lt_trans hij hj⟩)).toRat
      = (sortVal k (l.get ⟨j, hj⟩)).toRat) :
    [(i, l.get ⟨i, lt_trans hij hj⟩), (j, l.get ⟨j, hj⟩)].Sublist (sortedEnum k d l)
    ∧ sortStage k d l = (sortedEnum k d l).map Prod.snd := by
  refine ⟨?_, rfl⟩
  have hdir : (dirVal k d (l.get ⟨i, lt_trans hij hj⟩)).toRat
      = (dirVal k d (l.get ⟨j, hj⟩)).toRat := dirVal_toRat_eq hkey
  refine pairwise_strict_sublist (sortedEnum_pairwise k d l)
    (mem_sortedEnum_of_get k d l i (lt_trans hij hj))
    (mem_sortedEnum_of_get k d l j hj) ?_ ?_
  · rw [sortRelB_iff]
    exact Or.inr ⟨hdir, le_of_lt hij⟩
  · rw [sortRelB_iff]
    rintro (hlt | ⟨-, hji⟩)
    · rw [hdir] at hlt
      exact absurd hlt (lt_irrefl _)
    · omega

/-- Claim C8 witness: two rows with equal totals keep their input order in
the descending sort. -/
theorem sort_stage_stable_w :
    [(0, [vrA, vrB].get ⟨0, by decide⟩), (1, [vrA, vrB].get ⟨1, by decide⟩)].Sublist
      (sortedEnum "totalRange" "desc" [vrA, vrB])
    ∧ sortStage "totalRange" "desc" [vrA, vrB]
      = (sortedEnum "totalRange" "desc" [vrA, vrB]).map Prod.snd :=
  sort_stage_stable "totalRange" "desc" [vrA, vrB] 0 1 (by decide) (by decide) rfl

/-- Claim C9: the spec scenario — a single completion in 2021-22 over the
2019-2024 index gives total5 = 1, avg5 = 0.2, zeros = 4, peak = 1, is
flagged, and the reason mentions both "zeros 4/5" and "max/year 1". -/
theorem scenario_single_spike :
    total5Of rec9 ys9 = 1 ∧ avg5Of rec9 ys9 = 0.2 ∧ zerosOf rec9 ys9 = 4 ∧
    peakOf rec9 ys9 = 1 ∧ (assessRecDeact rec9 ys9).flag = true ∧
    "zeros 4/5".data <:+: (assessRecDeact rec9 ys9).reason.data ∧
    "max/year 1".data <:+: (assessRecDeact rec9 ys9).reason.data := by
  refine ⟨by decide, ?_, by decide, by decide, by decide, by decide, by decide⟩
  show (total5Of rec9 ys9 : ℚ) / ((last5Of ys9).length : ℚ) = 0.2
  rw [show total5Of rec9 ys9 = 1 by decide, show (last5Of ys9).length = 5 by decide]
  norm_num

/-- Claim C10: a column becomes a year column exactly when its name
contains a four-digit, dash, two-digit substring anywhere (the test is
unanchored), so a name like "xx2019-20yy" is ingested into the years
mapping. -/
theorem tidyRow_year_classification :
    (∀ (row : RawRow) (k : String),
        k ∈ (tidyRow row).years.map Prod.fst ↔ k ∈ row.map Prod.fst ∧ isYearLike k = true)
    ∧ (∀ s : String, isYearLike s = true ↔
        ∃ (p : List Char) (a b c d e f : Char) (q : List Char),
          s.data = p ++ a :: b :: c :: d :: '-' :: e :: f :: q ∧
          isDigitChar a = true ∧ isDigitChar b = true ∧ isDigitChar c = true ∧
          isDigitChar d = true ∧ isDigitChar e = true ∧ isDigitChar f = true)
    ∧ "xx2019-20yy" ∈ (tidyRow [("xx2019-20yy", some "7")]).years.map Prod.fst := by
  refine ⟨?_, fun s => hasYearPat_iff s.data, by decide⟩
  intro row k
  rw [tidyRow_years, List.map_map,
    show (Prod.fst ∘ fun k => (k, coerceCell ((List.lookup k row).getD none))) = id from rfl,
    List.map_id, List.mem_filter]

/-- Claim C3 counterexample: a raw row carrying the numeric string "-3" in
a year column normalizes to the negative count -3, violating
non-negativity. -/
theorem tidyRow_negative_year :
    List.lookup "2019-20" (tidyRow [("2019-20", some "-3")]).years = some (-3)
    ∧ ¬ (0 ≤ (-3 : Int)) :=
  ⟨by decide, by decide⟩

/-- Claim C3 amended: year columns are not guaranteed non-negative.  What
does hold: a missing or undefined source cell normalizes to 0; a source
cell that is not a JS numeric literal (so `Number()` yields NaN, and
`|| 0` replaces it) normalizes to 0; and a source cell holding a signed
integer numeral whose magnitude stays in the integer-exact double range
stores exactly that integer — which may be negative.  (Numeric literals
outside that fragment — fractional, exponent, or hex forms — are likewise
carried through by `Number()` rather than zeroed, so neither
non-negativity nor integrality is enforced.) -/
theorem tidyRow_year_value_coercion (row : RawRow) (y : String) (v : Option String)
    (hnd : (row.map Prod.fst).Nodup) (hmem : (y, v) ∈ row) (hy : isYearLike y = true) :
    (v = none → List.lookup y (tidyRow row).years = some 0)
    ∧ (∀ s, v = some s → isJsNumeral s = false →
        List.lookup y (tidyRow row).years = some 0)
    ∧ (∀ s n, v = some s → jsNumber s = some n → n.natAbs ≤ 2 ^ 53 →
        List.lookup y (tidyRow row).years = some n) := by
  have hymem : y ∈ (row.map Prod.fst).filter isYearLike :=
    List.mem_filter.mpr ⟨List.mem_map.mpr ⟨(y, v), hmem, rfl⟩, hy⟩
  have hbase : List.lookup y (tidyRow row).years = some (coerceCell v) := by
    rw [tidyRow_years, lookup_map_self _ _ y hymem,
      lookup_eq_of_mem_nodup row y v hnd hmem]
    rfl
  refine ⟨?_, ?_, ?_⟩
  · rintro rfl
    exact hbase
  · rintro s rfl hnan
    rw [hbase]
    congr 1
    show (jsNumber s).getD 0 = 0
    cases hjs : jsNumber s with
    | none => rfl
    | some w =>
      have := jsNumber_num s w hjs
      rw [hnan] at this
      exact Bool.noConfusion this
  · rintro s n rfl hjs hrange
    rw [hbase]
    show some ((jsNumber s).getD 0) = some n
    rw [hjs]
    rfl

/-- Claim C3 witness: the amended statement at a concrete row exercising
all three cases — an undefined cell, a non-numeric cell, and a negative
integer-numeral cell. -/
theorem tidyRow_year_value_coercion_w :
    List.lookup "2020-21" (tidyRow rowC3w).years = some 0
    ∧ List.lookup "2021-22" (tidyRow rowC3w).years = some 0
    ∧ List.lookup "2019-20" (tidyRow rowC3w).years = some (-7) :=
  ⟨(tidyRow_year_value_coercion rowC3w "2020-21" none
      (by decide) (by decide) (by decide)).1 rfl,
    (tidyRow_year_value_coercion rowC3w "2021-22" (some "abc")
      (by decide) (by decide) (by decide)).2.1 "abc" rfl (by decide),
    (tidyRow_year_value_coercion rowC3w "2019-20" (some "-7")
      (by decide) (by decide) (by decide)).2.2 "-7" (-7) rfl (by decide) (by decide)⟩

/-- Claim C2 counterexample: a department name containing the delimiter is
serialized unquoted, so the exported line gains a field, the columns shift
on re-parsing, and the year count 7 reads back as 0. -/
theorem export_roundtrip_cx :
    csvDataRow ["2019-20"] (annotateRow ["2019-20"] ["2019-20"] recCx)
      = "A,B,c,\"t\",\"a\",7,7.00,No,7"
    ∧ yearVal recCx "2019-20" = 7
    ∧ List.lookup "2019-20" (tidyRow (reparseRow (csvHeader ["2019-20"])
        (csvDataRow ["2019-20"] (annotateRow ["2019-20"] ["2019-20"] recCx)))).years
      = some 0 :=
  ⟨by decide, by decide, by decide⟩

/-- Claim C2 amended: for an exported row whose dept and code contain
neither the delimiter nor a quote (title and award are always quoted with
internal quotes doubled and are safe), re-parsing the serialized data row
against the serialized header recovers, for every visible year label, the
row's stored count, with absent counts reading back as 0. -/
theorem export_roundtrip (v : ViewRow) (vy : List String)
    (hdept : cleanStr v.base.dept) (hcode : cleanStr v.base.code)
    (hvy : ∀ y ∈ vy, isYearLike y = true ∧ cleanStr y) (hnd : vy.Nodup) :
    ∀ y ∈ vy,
      List.lookup y (tidyRow (reparseRow (csvHeader vy) (csvDataRow vy v))).years
        = some (yearVal v.base y) := by
  intro y hy
  have hfixedclean : ∀ x ∈ fixedHeaderCols, cleanStr x := by
    intro x hx
    simp only [fixedHeaderCols, List.mem_cons, List.not_mem_nil, or_false] at hx
    rcases hx with rfl | rfl | rfl | rfl | rfl | rfl | rfl <;> exact cleanStr_of_all _ (by decide)
  have hheader : splitCsvLine (csvHeader vy) = fixedHeaderCols ++ vy := by
    have hok : ∀ c ∈ (fixedHeaderCols ++ vy).map CsvCell.raw, cellOk c := by
      intro c hc
      rcases List.mem_map.mp hc with ⟨x, hx, rfl⟩
      show cleanStr x
      rcases List.mem_append.mp hx with hx | hx
      · exact hfixedclean x hx
      · exact (hvy x hx).2
    have hne : (fixedHeaderCols ++ vy).map CsvCell.raw ≠ [] := by simp [fixedHeaderCols]
    unfold csvHeader
    calc splitCsvLine (joinComma (fixedHeaderCols ++ vy))
        = splitCsvLine (joinComma (((fixedHeaderCols ++ vy).map CsvCell.raw).map renderCell)) := by
          rw [List.map_map, show (renderCell ∘ CsvCell.raw) = id from rfl, List.map_id]
      _ = ((fixedHeaderCols ++ vy).map CsvCell.raw).map cellVal :=
          splitCsvLine_joinComma _ hne hok
      _ = fixedHeaderCols ++ vy := by
          rw [List.map_map, show (cellVal ∘ CsvCell.raw) = id from rfl, List.map_id]
  have hcells : splitCsvLine (csvDataRow vy v)
      = [v.base.dept, v.base.code, v.base.title, v.base.award, intToStr v.totalRange,
          fracToFixed v.avgPerYear 2, if v.recDeact then "Yes" else "No"]
        ++ vy.map (fun y' => intToStr (yearVal v.base y')) := by
    unfold csvDataRow
    have hmap2 : ([CsvCell.raw v.base.dept, CsvCell.raw v.base.code,
        CsvCell.quoted v.base.title, CsvCell.quoted v.base.award,
        CsvCell.raw (intToStr v.totalRange), CsvCell.raw (fracToFixed v.avgPerYear 2),
        CsvCell.raw (if v.recDeact then "Yes" else "No")]
        ++ vy.map (fun y' => CsvCell.raw (intToStr (yearVal v.base y')))).map renderCell
        = csvRowCells vy v := by
      rw [List.map_append, List.map_map]
      rfl
    rw [← hmap2, splitCsvLine_joinComma _ (by simp) ?hok2]
    case hok2 =>
      intro c hc
      rcases List.mem_append.mp hc with hc | hc
      · simp only [List.mem_cons, List.not_mem_nil, or_false] at hc
        rcases hc with rfl | rfl | rfl | rfl | rfl | rfl | rfl
        · exact hdept
        · exact hcode
        · trivial
        · trivial
        · exact cleanStr_intToStr _
        · exact cleanStr_fracToFixed _ _
        · show cleanStr (if v.recDeact then "Yes" else "No")
          split <;> exact cleanStr_of_all _ (by decide)
      · rcases List.mem_map.mp hc with ⟨y', hy', rfl⟩
        exact cleanStr_intToStr _
    rw [List.map_append, List.map_map]
    rfl
  unfold reparseRow
  rw [hheader, hcells, tidyRow_years]
  have hkeys : (((fixedHeaderCols ++ vy).zip
      (([v.base.dept, v.base.code, v.base.title, v.base.award, intToStr v.totalRange,
          fracToFixed v.avgPerYear 2, if v.recDeact then "Yes" else "No"]
        ++ vy.map (fun y' => intToStr (yearVal v.base y'))).map some)).map Prod.fst)
      = fixedHeaderCols ++ vy := by
    refine List.map_fst_zip _ _ ?_
    simp [fixedHeaderCols]
  rw [hkeys]
  have hfilter : (fixedHeaderCols ++ vy).filter isYearLike = vy := by
    rw [List.filter_append, show fixedHeaderCols.filter isYearLike = [] by decide,
      List.filter_eq_self.mpr (fun x hx => (hvy x hx).1), List.nil_append]
  rw [hfilter, lookup_map_self _ _ y hy]
  have hyfix : y ∉ fixedHeaderCols := by
    intro hmem
    have hall : ∀ x ∈ fixedHeaderCols, isYearLike x = false := by decide
    have := hall y hmem
    rw [(hvy y hy).1] at this
    exact Bool.noConfusion this
  obtain ⟨vy1, vy2, rfl⟩ := List.append_of_mem hy
  have hyvy1 : y ∉ vy1 := by
    rcases List.nodup_append.mp hnd with ⟨-, -, hdisj⟩
    exact fun hy1 => hdisj hy1 (List.mem_cons_self y vy2)
  rw [show fixedHeaderCols ++ (vy1 ++ y :: vy2) = (fixedHeaderCols ++ vy1) ++ y :: vy2 from
    (List.append_assoc _ _ _).symm]
  rw [show (([v.base.dept, v.base.code, v.base.title, v.base.award, intToStr v.totalRange,
        fracToFixed v.avgPerYear 2, if v.recDeact then "Yes" else "No"]
      ++ (vy1 ++ y :: vy2).map (fun y' => intToStr (yearVal v.base y'))).map some)
      = ([v.base.dept, v.base.code, v.base.title, v.base.award, intToStr v.totalRange,
          fracToFixed v.avgPerYear 2, if v.recDeact then "Yes" else "No"].map some
        ++ vy1.map (fun y' => some (intToStr (yearVal v.base y'))))
        ++ some (intToStr (yearVal v.base y))
          :: vy2.map (fun y' => some (intToStr (yearVal v.base y'))) by
    simp [List.map_append, List.map_map, Function.comp_def, List.append_assoc]]
  rw [lookup_zip_found _ _ _ _ y _ (by simp [fixedHeaderCols]) ?notmem]
  case notmem =>
    intro hmem
    rcases List.mem_append.mp hmem with hmem | hmem
    · exact hyfix hmem
    · exact hyvy1 hmem
  rw [Option.getD_some,
    show coerceCell (some (intToStr (yearVal v.base y)))
      = (jsNumber (intToStr (yearVal v.base y))).getD 0 from rfl,
    jsNumber_intToStr]
  rfl

/-- Claim C2 witness: the amended round-trip at a concrete row whose title
and award contain quotes and delimiters. -/
theorem export_roundtrip_w :
    List.lookup "2019-20" (tidyRow (reparseRow (csvHeader ["2019-20"])
      (csvDataRow ["2019-20"] (annotateRow ["2019-20"] ["2019-20"] recW)))).years
      = some (yearVal (annotateRow ["2019-20"] ["2019-20"] recW).base "2019-20") :=
  export_roundtrip (annotateRow ["2019-20"] ["2019-20"] recW) ["2019-20"]
    (cleanStr_of_all _ (by decide)) (cleanStr_of_all _ (by decide))
    (by
      intro y hy
      rw [List.mem_singleton] at hy
      subst hy
      exact ⟨by decide, cleanStr_of_all _ (by decide)⟩)
    (by decide) "2019-20" (by decide)

end Awards
